import Mathlib

/-!
Verification development for the text-annotation routines of
taipo/common.py: the paren-form annotation scanner used by
entity_names and replace_ent_assignment, and the curly-bracket
scanner gen_curly_ents used by curly_entity_items.

Strings are modelled as lists of characters.  Python's index
arithmetic (str.find returning -1, slices with negative indices
wrapping from the end and clamping) is embedded explicitly, since
the curly-bracket scanner's behaviour on malformed input depends on
exactly those conventions.
-/

namespace Taipo

/-- Python str.find for a single-character needle: the index of the first
occurrence, or -1 when the character is absent. -/
def pyFind (s : List Char) (c : Char) : Int :=
  match s.findIdx? (fun d => d == c) with
  | some i => (i : Int)
  | none => -1

/-- Python slice s[i:] : a negative start wraps from the end of the string
and is clamped at 0; a start past the end yields the empty string. -/
def pySliceFrom (s : List Char) (i : Int) : List Char :=
  if i < 0 then s.drop (((s.length : Int) + i).toNat) else s.drop i.toNat

/-- Python slice s[i:j] with wrapping and clamping at both ends; empty
whenever the normalised start is at or past the normalised stop. -/
def pySlice (s : List Char) (i j : Int) : List Char :=
  let n : Int := (s.length : Int)
  let i2 : Int := if i < 0 then max (n + i) 0 else min i n
  let j2 : Int := if j < 0 then max (n + j) 0 else min j n
  (s.take j2.toNat).drop i2.toNat

/-- Python str.replace old new, fuelled: replaces every non-overlapping
occurrence of old, scanning left to right.  Every call site passes a
non-empty old, and fuel equal to the length of s is always enough since
each step consumes at least one character of s. -/
def pyReplaceF : Nat → List Char → List Char → List Char → List Char
  | 0, s, _, _ => s
  | fuel+1, s, old, new =>
    match s with
    | [] => []
    | c :: t =>
      if !old.isEmpty && old.isPrefixOf (c :: t) then
        new ++ pyReplaceF fuel ((c :: t).drop old.length) old new
      else
        c :: pyReplaceF fuel t old new

/-- Python str.replace old new on character lists. -/
def pyReplace (s old new : List Char) : List Char :=
  pyReplaceF s.length s old new

/-- Python substring membership: sub in s. -/
def hasSub : List Char → List Char → Bool
  | [], sub => sub.isEmpty
  | s@(_ :: t), sub => sub.isPrefixOf s || hasSub t sub

/-! Scanner for the parse-library pattern consisting of a literal
open bracket, a lazy non-empty group, the literal close bracket and
open paren, a second lazy non-empty group, and the literal close
paren (used by replace_ent_assignment).  Lazy matching: the shortest
group that lets the rest of the pattern match, with backtracking. -/

/-- Match the name part of the bracket-paren pattern at the start of the
text following the literal open paren: the group is the shortest
non-empty run of characters followed by a close paren. -/
def nameMatch : List Char → Option (List Char × List Char)
  | [] => none
  | c :: u =>
    match u.findIdx? (fun d => d == ')') with
    | none => none
    | some j => some (c :: u.take j, u.drop (j+1))

/-- Attempt to close the entity group: succeeds when the remaining text
starts with a close bracket followed by an open paren and the name part
matches; acc holds the entity characters consumed so far, reversed. -/
def tryClose (acc t : List Char) : Option (List Char × List Char × List Char) :=
  match t with
  | ']' :: '(' :: u =>
    match nameMatch u with
    | some (n, rest) => some (acc.reverse, n, rest)
    | none => none
  | _ => none

/-- Grow the entity group one character at a time, trying to close the
pattern at each boundary: this is exactly the lazy-with-backtracking
semantics of the regex the parse library compiles. -/
def entLoop : List Char → List Char → Option (List Char × List Char × List Char)
  | _, [] => none
  | acc, c :: t =>
    match tryClose acc (c :: t) with
    | some r => some r
    | none => entLoop (c :: acc) t

/-- Match the bracket-paren annotation pattern anchored at the head of s:
s must start with an open bracket, and the entity group is non-empty. -/
def bpMatchAt : List Char → Option ((List Char × List Char) × List Char)
  | '[' :: c :: t =>
    (match entLoop [c] t with
     | some (e, n, rest) => some ((e, n), rest)
     | none => none)
  | _ => none

/-- All non-overlapping bracket-paren matches, scanning left to right,
fuelled; fuel equal to the length of the text always suffices since each
step (match or single-character advance) consumes at least one character. -/
def bpFindAllF : Nat → List Char → List (List Char × List Char)
  | 0, _ => []
  | _+1, [] => []
  | fuel+1, s@(_ :: t) =>
    match bpMatchAt s with
    | some (pair, rest) => pair :: bpFindAllF fuel rest
    | none => bpFindAllF fuel t

/-- parse_compile of the bracket-paren pattern followed by findall:
every non-overlapping (entity, ent_name) match in left-to-right order. -/
def bpFindAll (s : List Char) : List (List Char × List Char) :=
  bpFindAllF s.length s

/-- Match the bare paren pattern (literal open paren, lazy non-empty
group, literal close paren) anchored at the head of s.  This is the
pattern entity_names compiles: it has no bracket part. -/
def parenMatchAt : List Char → Option (List Char × List Char)
  | '(' :: c :: u =>
    (match u.findIdx? (fun d => d == ')') with
     | none => none
     | some j => some (c :: u.take j, u.drop (j+1)))
  | _ => none

/-- All non-overlapping bare-paren matches, scanning left to right, fuelled. -/
def parenFindAllF : Nat → List Char → List (List Char)
  | 0, _ => []
  | _+1, [] => []
  | fuel+1, s@(_ :: t) =>
    match parenMatchAt s with
    | some (g, rest) => g :: parenFindAllF fuel rest
    | none => parenFindAllF fuel t

/-- findall of the bare paren pattern over a text: the group values of
every non-overlapping match, left to right. -/
def parenFindAll (s : List Char) : List (List Char) :=
  parenFindAllF s.length s

/-- First-seen-order de-duplication, as pandas unique performs it in
entity_names; seen accumulates the values already emitted. -/
def uniqAux : List (List Char) → List (List Char) → List (List Char)
  | _, [] => []
  | seen, a :: t => if a ∈ seen then uniqAux seen t else a :: uniqAux (a :: seen) t

/-- Embedding of entity_names: findall of the bare paren pattern over
every text, flattened in order, then de-duplicated first-seen (an empty
flat list yields the empty result). -/
def entity_names (texts : List (List Char)) : List (List Char) :=
  uniqAux [] ((texts.map parenFindAll).flatten)

/-! The curly-bracket scanner gen_curly_ents and its consumer
curly_entity_items.  The Python generator's loop body is embedded as
one step function; because the loop can genuinely fail to terminate
(the cursor need not advance when delimiters are missing), iteration
is fuelled, with none denoting an unfinished run. -/

/-- One iteration of the gen_curly_ents loop body: none when the text
holds no open bracket (the loop's sole exit), otherwise the emitted
(ent, curly_bit) pair and the reassigned text, with all of Python's
find sentinel (-1) and negative-slice arithmetic preserved. -/
def genStep (text : List Char) : Option ((List Char × List Char) × List Char) :=
  let sq1 := pyFind text '['
  if sq1 = -1 then none
  else
    let sq2 := pyFind (pySliceFrom text sq1) ']'
    let br1 := pyFind (pySliceFrom text (sq1 + sq2)) '\x7b'
    let br2 := pyFind (pySliceFrom text (sq1 + sq2 + br1)) '\x7d'
    let ent := pySlice text sq1 (sq1 + sq2 + 1)
    let curly := pySlice text (sq1 + sq2 + br1) (sq1 + sq2 + br1 + br2 + 1)
    some ((ent, curly), pySliceFrom text (sq1 + sq2 + br1 + br2))

/-- Exhaustive iteration of gen_curly_ents under a fuel bound: some
with the full list of emitted pairs when the loop reaches its exit
within the fuel, none when it is still running. -/
def gen_curly_ents : Nat → List Char → Option (List (List Char × List Char))
  | 0, text =>
    (match genStep text with
     | none => some []
     | some _ => none)
  | fuel+1, text =>
    match genStep text with
    | none => some []
    | some (pair, rest) => (gen_curly_ents fuel rest).map (pair :: ·)

/-- The per-span cleaning chain of curly_entity_items, in source order:
colon to space, open curly removed, close curly removed, comma to space. -/
def cleanChars (s : List Char) : List Char :=
  ((((s.map (fun c => if c = ':' then ' ' else c)).filter
      (fun c => !(c == '\x7b'))).filter
      (fun c => !(c == '\x7d'))).map (fun c => if c = ',' then ' ' else c))

/-- Python str.split on a single space: consecutive separators and
separators at the ends produce empty fields, and the empty string
splits to one empty field. -/
def pySplitSpace : List Char → List (List Char)
  | [] => [[]]
  | c :: t =>
    if c = ' ' then [] :: pySplitSpace t
    else
      match pySplitSpace t with
      | [] => [[c]]
      | seg :: rest => (c :: seg) :: rest

/-- The non-empty tokens curly_entity_items extracts from one emitted
curly span. -/
def curlyTokens (curly : List Char) : List (List Char) :=
  (pySplitSpace (cleanChars curly)).filter (fun x => !x.isEmpty)

/-- Run gen_curly_ents to exhaustion on every text of the corpus under a
common fuel bound; none as soon as any text's scan fails to finish. -/
def genAll (fuel : Nat) : List (List Char) → Option (List (List (List Char × List Char)))
  | [] => some []
  | t :: ts =>
    match gen_curly_ents fuel t, genAll fuel ts with
    | some ps, some rest => some (ps :: rest)
    | _, _ => none

/-- Embedding of curly_entity_items: tokens of every curly span of every
text, flattened in corpus order, then de-duplicated (the Python source
passes the accumulated list through set, whose order is unspecified;
List.dedup realises one order). -/
def curly_entity_items (fuel : Nat) (texts : List (List Char)) : Option (List (List Char)) :=
  (genAll fuel texts).map
    (fun pss => (((pss.flatten).map (fun p => curlyTokens p.2)).flatten).dedup)

/-- The replacement pass replace_ent_assignment performs for one found
match: the bracketed entity replaced by the bare entity text, then the
parenthesised name replaced by the empty string, each as global
substring replacement. -/
def applyFound (t : List Char) (f : List Char × List Char) : List Char :=
  pyReplace (pyReplace t ('[' :: f.1 ++ [']']) f.1) ('(' :: f.2 ++ [')']) []

/-- Strip one text: findall of the bracket-paren pattern is materialised
from the original text, then each found match's replacements are applied
in order to the evolving text. -/
def stripOne (t : List Char) : List Char :=
  (bpFindAll t).foldl applyFound t

/-- Embedding of replace_ent_assignment: each text stripped independently,
results in input order. -/
def replace_ent_assignment (texts : List (List Char)) : List (List Char) :=
  texts.map stripOne

/-! Helper lemmas shared by several claims. -/

/-- A text in which the bracket-paren scanner finds nothing is returned
unchanged by the stripping pass. -/
theorem stripOne_of_no_match {t : List Char} (h : bpFindAll t = []) : stripOne t = t := by
  unfold stripOne
  rw [h]
  rfl

/-- A successful findIdx? determines the value of pyFind. -/
theorem pyFind_eq_natCast {s : List Char} {c : Char} {i : Nat}
    (h : s.findIdx? (fun d => d == c) = some i) : pyFind s c = (i : Int) := by
  simp [pyFind, h]

/-- A Python slice from a nonnegative start is a drop. -/
theorem pySliceFrom_natCast (s : List Char) (a : Nat) :
    pySliceFrom s (a : Int) = s.drop a := by
  unfold pySliceFrom
  rw [if_neg (by omega), Int.toNat_ofNat]

/-- A Python slice with nonnegative endpoints is a take followed by a drop. -/
theorem pySlice_natCast (s : List Char) (a b : Nat) :
    pySlice s (a : Int) (b : Int) = (s.take b).drop a := by
  simp only [pySlice]
  rw [if_neg (by omega), if_neg (by omega), ← Nat.cast_min, ← Nat.cast_min,
    Int.toNat_ofNat, Int.toNat_ofNat]
  have htake : s.take (min b s.length) = s.take b := by
    rw [← List.take_take, List.take_length]
  rw [htake]
  rcases Nat.le_total a s.length with hc | hc
  · rw [Nat.min_eq_left hc]
  · have hlen : (s.take b).length ≤ s.length := by
      simp only [List.length_take]
      omega
    rw [Nat.min_eq_right hc, List.drop_eq_nil_iff.mpr hlen,
      List.drop_eq_nil_iff.mpr (le_trans hlen hc)]

/-- Claim C1 (status code_bug): the claim asserts that iterating
gen_curly_ents terminates in bounded time for every input, in particular
for a text containing an open bracket with no following close bracket or
curly delimiters.  The code violates this: on the one-character text
consisting of a single open bracket, every iteration yields the
degenerate pair of two empty spans and reassigns the text to itself, so
no amount of fuel completes the scan. -/
theorem C1_gen_curly_ents_nonterminating :
    ∀ fuel : Nat, gen_curly_ents fuel ['['] = none := by
  have hstep : genStep ['['] = some (([], []), ['[']) := by decide
  intro fuel
  induction fuel with
  | zero => simp [gen_curly_ents, hstep]
  | succ f ih => simp [gen_curly_ents, hstep, ih]

/-- Claim C2, counterexample: the text consisting of a bare parenthesised
run has no full bracket-paren annotation occurrence, yet entity_names
does not return the empty list on it, because the pattern the source
compiles has no bracket part. -/
theorem C2_counterexample :
    bpFindAll (("(foo)").toList) = [] ∧ entity_names [("(foo)").toList] ≠ [] := by
  decide

/-- Claim C2 as amended: entity_names collects names from every
parenthesised run, so it returns the empty list exactly when no text
contains a bare-paren match (rather than when no text contains a full
bracket-paren annotation). -/
theorem C2_no_paren_runs_no_names (texts : List (List Char))
    (h : ∀ t ∈ texts, parenFindAll t = []) : entity_names texts = [] := by
  induction texts with
  | nil => rfl
  | cons t ts ih =>
    have ht : parenFindAll t = [] := h t (List.mem_cons_self t ts)
    have hts := ih (fun x hx => h x (List.mem_cons_of_mem t hx))
    simp only [entity_names] at hts ⊢
    rw [List.map_cons, List.flatten_cons, ht, List.nil_append]
    exact hts

/-- Witness for the amended claim C2 at a concrete input. -/
theorem C2_witness : entity_names [("no brackets at all").toList] = [] :=
  C2_no_paren_runs_no_names [("no brackets at all").toList] (by decide)

/-- Claim C3, counterexample: after emitting the first pair on a text
with two well-formed curly annotations, the scan does not continue from
the open-curly position; the remaining text starts at the close curly,
so everything from the open curly up to (but excluding) the close curly
has been dropped as well. -/
theorem C3_counterexample :
    (genStep (("[a]\x7bb\x7d[c]\x7bd\x7d").toList)).map Prod.snd
      = some (("\x7d[c]\x7bd\x7d").toList) ∧
    some (("\x7d[c]\x7bd\x7d").toList) ≠ some (("\x7bb\x7d[c]\x7bd\x7d").toList) := by
  decide

/-- Claim C3 as amended: when the four delimiter searches all succeed, at
offsets i (the open bracket in the text), j (the close bracket in the
suffix from i), k (the open curly in the suffix from i+j) and l (the
close curly in the suffix from i+j+k), the emitted pair is the bracket
span through the close bracket and the curly span through the close
curly, and the scan continues from text[sq1+sq2+br1+br2:], i.e. it drops
everything strictly before the close curly, keeping the close curly as
the head of the remaining text. -/
theorem C3_genStep_advance (text : List Char) (i j k l : Nat)
    (h1 : text.findIdx? (fun d => d == '[') = some i)
    (h2 : (text.drop i).findIdx? (fun d => d == ']') = some j)
    (h3 : (text.drop (i + j)).findIdx? (fun d => d == '\x7b') = some k)
    (h4 : (text.drop (i + j + k)).findIdx? (fun d => d == '\x7d') = some l) :
    genStep text = some (((text.drop i).take (j + 1), (text.drop (i + j + k)).take (l + 1)),
      text.drop (i + j + k + l)) := by
  have f1 : pyFind text '[' = (i : Int) := pyFind_eq_natCast h1
  have f2 : pyFind (text.drop i) ']' = (j : Int) := pyFind_eq_natCast h2
  have f3 : pyFind (text.drop (i + j)) '\x7b' = (k : Int) := pyFind_eq_natCast h3
  have f4 : pyFind (text.drop (i + j + k)) '\x7d' = (l : Int) := pyFind_eq_natCast h4
  simp only [genStep]
  rw [f1, if_neg (show ¬((i : Int) = -1) by omega), pySliceFrom_natCast, f2]
  have c2 : (i : Int) + (j : Int) = ((i + j : Nat) : Int) := by push_cast; ring
  rw [c2, pySliceFrom_natCast, f3]
  have c3 : ((i + j : Nat) : Int) + (k : Int) = ((i + j + k : Nat) : Int) := by push_cast; ring
  rw [c3, pySliceFrom_natCast, f4]
  have c4 : ((i + j + k : Nat) : Int) + (l : Int) = ((i + j + k + l : Nat) : Int) := by
    push_cast; ring
  rw [c4, pySliceFrom_natCast]
  have c5 : ((i + j : Nat) : Int) + 1 = ((i + j + 1 : Nat) : Int) := by push_cast; ring
  have c6 : ((i + j + k + l : Nat) : Int) + 1 = ((i + j + k + l + 1 : Nat) : Int) := by
    push_cast; ring
  rw [c5, c6, pySlice_natCast, pySlice_natCast, List.drop_take, List.drop_take]
  have d1 : i + j + 1 - i = j + 1 := by omega
  have d2 : i + j + k + l + 1 - (i + j + k) = l + 1 := by omega
  rw [d1, d2]

/-- Witness for the amended claim C3 at a concrete input. -/
theorem C3_witness :
    genStep (("[a]\x7bb\x7d").toList)
      = some ((((("[a]\x7bb\x7d").toList).drop 0).take 3,
               ((("[a]\x7bb\x7d").toList).drop 3).take 3),
              (("[a]\x7bb\x7d").toList).drop 5) :=
  C3_genStep_advance (("[a]\x7bb\x7d").toList) 0 2 1 2
    (by decide) (by decide) (by decide) (by decide)

/-- Claim C4, counterexample: stripping is not idempotent.  On the text
where a full annotation is nested inside the bracket span of a larger
bracket-paren shape, one stripping pass manufactures a fresh annotation
occurrence, and a second pass strips it too. -/
theorem C4_counterexample :
    replace_ent_assignment [("[[a](b)](c)").toList] = [("[a](c)").toList] ∧
    replace_ent_assignment [("[a](c)").toList] = [("a").toList] ∧
    replace_ent_assignment (replace_ent_assignment [("[[a](b)](c)").toList])
      ≠ replace_ent_assignment [("[[a](b)](c)").toList] := by
  decide

/-- Claim C4 as amended: the stripper is idempotent on those inputs whose
stripped texts contain no further bracket-paren match; in general a
stripping pass can create new matches and a second pass changes the
result again. -/
theorem C4_strip_idempotent_on_stable (texts : List (List Char))
    (h : ∀ t ∈ texts, bpFindAll (stripOne t) = []) :
    replace_ent_assignment (replace_ent_assignment texts) = replace_ent_assignment texts := by
  unfold replace_ent_assignment
  rw [List.map_map]
  exact List.map_congr_left fun t ht => stripOne_of_no_match (h t ht)

/-- Witness for the amended claim C4 at a concrete input. -/
theorem C4_witness :
    replace_ent_assignment (replace_ent_assignment [("[python](proglang)").toList])
      = replace_ent_assignment [("[python](proglang)").toList] :=
  C4_strip_idempotent_on_stable [("[python](proglang)").toList] (by decide)

/-- Claim C5: entity_names de-duplicates in first-seen order across the
corpus; both spec examples evaluate as stated. -/
theorem C5_entity_names_examples :
    entity_names [("[python](proglang) and [pandas](package)").toList]
      = [("proglang").toList, ("package").toList] ∧
    entity_names [("[a](e1) and [b](e1)").toList] = [("e1").toList] := by
  decide

/-- Claim C6, counterexample: on a text whose single well-formed
occurrence is accompanied by a stray fragment, the global substring
replacement re-creates the bracketed entity text: the output contains
the literal bracket span of the matched entity. -/
theorem C6_counterexample :
    bpFindAll (("[a](b) [a(b)]").toList) = [(("a").toList, ("b").toList)] ∧
    replace_ent_assignment [("[a](b) [a(b)]").toList] = [("a [a]").toList] ∧
    hasSub (("a [a]").toList) (("[a]").toList) = true := by
  decide

/-- Claim C6 as amended: the no-leftover guarantee holds at the spec's
example (and the output there carries neither bracket spans nor
parenthesised names of the matches), but it is not a theorem for
arbitrary texts, where unmatched fragments can recreate the replaced
substrings. -/
theorem C6_strip_example :
    replace_ent_assignment [("[python](proglang) and [pandas](package)").toList]
      = [("python and pandas").toList] ∧
    hasSub (("python and pandas").toList) (("[python]").toList) = false ∧
    hasSub (("python and pandas").toList) (("(proglang)").toList) = false ∧
    hasSub (("python and pandas").toList) (("[pandas]").toList) = false ∧
    hasSub (("python and pandas").toList) (("(package)").toList) = false := by
  decide

/-- Claim C9: empty input sequences yield empty results for all three
corpus functions, and a text without annotations contributes no names. -/
theorem C9_empty_inputs :
    entity_names [] = [] ∧ replace_ent_assignment [] = [] ∧
    (∀ fuel : Nat, curly_entity_items fuel [] = some []) ∧
    entity_names [("no annotations here").toList] = [] := by
  refine ⟨rfl, rfl, fun fuel => rfl, by decide⟩

/-- A text on which the step finds no open bracket is a terminal state:
any fuel completes immediately with no emitted pairs. -/
theorem gen_curly_ents_of_stop {t : List Char} (h : genStep t = none) :
    ∀ fuel : Nat, gen_curly_ents fuel t = some [] := by
  intro fuel
  cases fuel with
  | zero => simp [gen_curly_ents, h]
  | succ f => simp [gen_curly_ents, h]

/-- Unfolding one productive iteration of the fuelled scan. -/
theorem gen_curly_ents_succ {t r : List Char} {p : List Char × List Char}
    (h : genStep t = some (p, r)) (f : Nat) :
    gen_curly_ents (f + 1) t = (gen_curly_ents f r).map (p :: ·) := by
  simp [gen_curly_ents, h]

/-- genAll on an empty corpus. -/
theorem genAll_nil (fuel : Nat) : genAll fuel [] = some [] := rfl

/-- genAll on a corpus whose head and tail scans both complete. -/
theorem genAll_cons {fuel : Nat} {t : List Char} {ts : List (List Char)}
    {ps : List (List Char × List Char)} {rest : List (List (List Char × List Char))}
    (h1 : gen_curly_ents fuel t = some ps) (h2 : genAll fuel ts = some rest) :
    genAll fuel (t :: ts) = some (ps :: rest) := by
  simp [genAll, h1, h2]

/-- Claim C7: on the spec's example the curly span is tokenized by
treating colon and comma as separators, dropping empty tokens, and the
result holds exactly the key and the value; any sufficient fuel gives
the same answer. -/
theorem C7_curly_entity_items_example :
    ∀ fuel : Nat, 1 ≤ fuel →
      curly_entity_items fuel [("[x]\x7bentity: proglang\x7d").toList]
        = some [("entity").toList, ("proglang").toList] := by
  intro fuel hf
  obtain ⟨f, rfl⟩ : ∃ f, fuel = f + 1 := ⟨fuel - 1, by omega⟩
  have hstep : genStep (("[x]\x7bentity: proglang\x7d").toList)
      = some ((("[x]").toList, ("\x7bentity: proglang\x7d").toList), ("\x7d").toList) := by
    decide
  have hrest : genStep (("\x7d").toList) = none := by decide
  have hgen : gen_curly_ents (f + 1) (("[x]\x7bentity: proglang\x7d").toList)
      = some [(("[x]").toList, ("\x7bentity: proglang\x7d").toList)] := by
    rw [gen_curly_ents_succ hstep f, gen_curly_ents_of_stop hrest f]
    rfl
  unfold curly_entity_items
  rw [genAll_cons hgen (genAll_nil (f + 1))]
  decide

/-- Witness for claim C7 at a concrete fuel. -/
theorem C7_witness :
    curly_entity_items 1 [("[x]\x7bentity: proglang\x7d").toList]
      = some [("entity").toList, ("proglang").toList] :=
  C7_curly_entity_items_example 1 (by decide)

/-- Claim C8: for every input sequence, replace_ent_assignment returns a
sequence of the same length; the output at each position is the stripped
input text at that position; and a text in which the scanner finds no
bracket-paren match passes through unchanged at its position. -/
theorem C8_strip_alignment (texts : List (List Char)) :
    (replace_ent_assignment texts).length = texts.length ∧
    (∀ (i : Nat) (t : List Char), texts[i]? = some t →
      (replace_ent_assignment texts)[i]? = some (stripOne t)) ∧
    (∀ (i : Nat) (t : List Char), texts[i]? = some t → bpFindAll t = [] →
      (replace_ent_assignment texts)[i]? = some t) := by
  refine ⟨by simp [replace_ent_assignment], ?_, ?_⟩
  · intro i t hi
    simp [replace_ent_assignment, List.getElem?_map, hi]
  · intro i t hi hm
    simp [replace_ent_assignment, List.getElem?_map, hi, stripOne_of_no_match hm]

/-- Witness for claim C8 at a concrete input whose first text contains a
match and whose second does not. -/
theorem C8_witness :
    (replace_ent_assignment [("[a](b)").toList, ("plain text").toList]).length
      = ([("[a](b)").toList, ("plain text").toList] : List (List Char)).length ∧
    (replace_ent_assignment [("[a](b)").toList, ("plain text").toList])[0]?
      = some (stripOne (("[a](b)").toList)) ∧
    (replace_ent_assignment [("[a](b)").toList, ("plain text").toList])[1]?
      = some (("plain text").toList) :=
  ⟨(C8_strip_alignment [("[a](b)").toList, ("plain text").toList]).1,
   (C8_strip_alignment [("[a](b)").toList, ("plain text").toList]).2.1 0
     (("[a](b)").toList) (by decide),
   (C8_strip_alignment [("[a](b)").toList, ("plain text").toList]).2.2 1
     (("plain text").toList) (by decide) (by decide)⟩

/-- Every character of every field produced by pySplitSpace comes from
the input list and is not a space. -/
theorem pySplitSpace_mem (l : List Char) :
    ∀ seg ∈ pySplitSpace l, ∀ c ∈ seg, c ≠ ' ' ∧ c ∈ l := by
  induction l with
  | nil =>
    intro seg hseg c hc
    simp only [pySplitSpace, List.mem_singleton] at hseg
    subst hseg
    simp at hc
  | cons a t ih =>
    intro seg hseg c hc
    simp only [pySplitSpace] at hseg
    by_cases ha : a = ' '
    · rw [if_pos ha] at hseg
      rcases List.mem_cons.mp hseg with h1 | h1
      · subst h1; simp at hc
      · obtain ⟨hcs, hcm⟩ := ih seg h1 c hc
        exact ⟨hcs, List.mem_cons_of_mem a hcm⟩
    · rw [if_neg ha] at hseg
      rcases hrec : pySplitSpace t with _ | ⟨seg0, rest⟩
      · simp only [hrec, List.mem_singleton] at hseg
        subst hseg
        have hca : c = a := List.mem_singleton.mp hc
        exact ⟨by rw [hca]; exact ha, by rw [hca]; exact List.mem_cons_self a t⟩
      · simp only [hrec] at hseg
        rcases List.mem_cons.mp hseg with h1 | h1
        · subst h1
          rcases List.mem_cons.mp hc with hca | h2
          · exact ⟨by rw [hca]; exact ha, by rw [hca]; exact List.mem_cons_self a t⟩
          · have hseg0 : seg0 ∈ pySplitSpace t := by
              rw [hrec]; exact List.mem_cons_self seg0 rest
            obtain ⟨hcs, hcm⟩ := ih seg0 hseg0 c h2
            exact ⟨hcs, List.mem_cons_of_mem a hcm⟩
        · have hseg' : seg ∈ pySplitSpace t := by
            rw [hrec]; exact List.mem_cons_of_mem seg0 h1
          obtain ⟨hcs, hcm⟩ := ih seg hseg' c hc
          exact ⟨hcs, List.mem_cons_of_mem a hcm⟩

/-- No character surviving the cleaning chain is a curly brace, a colon
or a comma. -/
theorem cleanChars_mem (s : List Char) :
    ∀ c ∈ cleanChars s, c ≠ '\x7b' ∧ c ≠ '\x7d' ∧ c ≠ ':' ∧ c ≠ ',' := by
  intro c hc
  simp only [cleanChars, List.mem_map, List.mem_filter] at hc
  obtain ⟨d, ⟨⟨⟨e, he, hde⟩, hd1⟩, hd2⟩, hdc⟩ := hc
  have hd1' : d ≠ '\x7b' := by
    intro hx; rw [hx] at hd1; simp at hd1
  have hd2' : d ≠ '\x7d' := by
    intro hx; rw [hx] at hd2; simp at hd2
  have hd3' : d ≠ ':' := by
    intro hx
    by_cases he2 : e = ':'
    · rw [if_pos he2] at hde; rw [← hde] at hx; exact absurd hx (by decide)
    · rw [if_neg he2] at hde; rw [← hde] at hx; exact he2 hx
  by_cases hd : d = ','
  · rw [if_pos hd] at hdc
    subst hdc
    refine ⟨by decide, by decide, by decide, by decide⟩
  · rw [if_neg hd] at hdc
    subst hdc
    exact ⟨hd1', hd2', hd3', hd⟩

/-- Tokens emitted for one curly span are non-empty and free of the
separator characters. -/
theorem curlyTokens_mem (curly : List Char) :
    ∀ s ∈ curlyTokens curly, s ≠ [] ∧
      ∀ c ∈ s, c ≠ '\x7b' ∧ c ≠ '\x7d' ∧ c ≠ ':' ∧ c ≠ ',' ∧ c ≠ ' ' := by
  intro s hs
  simp only [curlyTokens, List.mem_filter] at hs
  obtain ⟨hsplit, hne⟩ := hs
  refine ⟨by simpa using hne, ?_⟩
  intro c hc
  obtain ⟨hsp, hmem⟩ := pySplitSpace_mem _ s hsplit c hc
  obtain ⟨a1, a2, a3, a4⟩ := cleanChars_mem _ c hmem
  exact ⟨a1, a2, a3, a4, hsp⟩

/-- Claim C10: whenever curly_entity_items completes, its result holds
pairwise-distinct tokens, each non-empty and containing no curly brace,
colon, comma or space character. -/
theorem C10_token_invariant (fuel : Nat) (texts : List (List Char))
    (out : List (List Char)) (h : curly_entity_items fuel texts = some out) :
    out.Nodup ∧ ∀ s ∈ out, s ≠ [] ∧
      ∀ c ∈ s, c ≠ '\x7b' ∧ c ≠ '\x7d' ∧ c ≠ ':' ∧ c ≠ ',' ∧ c ≠ ' ' := by
  rcases hg : genAll fuel texts with _ | pss
  · rw [curly_entity_items, hg] at h
    cases h
  · rw [curly_entity_items, hg] at h
    have hout : out = (((pss.flatten).map (fun p => curlyTokens p.2)).flatten).dedup :=
      (Option.some.inj h).symm
    subst hout
    refine ⟨List.nodup_dedup _, ?_⟩
    intro s hs
    have hs' : s ∈ ((pss.flatten).map (fun p => curlyTokens p.2)).flatten :=
      List.mem_dedup.mp hs
    obtain ⟨toks, htoks, hstoks⟩ := List.mem_flatten.mp hs'
    obtain ⟨p, hp, rfl⟩ := List.mem_map.mp htoks
    exact curlyTokens_mem _ s hstoks

/-- Witness for claim C10 at a concrete run. -/
theorem C10_witness :
    ([("a").toList] : List (List Char)).Nodup ∧
    ∀ s ∈ ([("a").toList] : List (List Char)), s ≠ [] ∧
      ∀ c ∈ s, c ≠ '\x7b' ∧ c ≠ '\x7d' ∧ c ≠ ':' ∧ c ≠ ',' ∧ c ≠ ' ' :=
  C10_token_invariant 1 [("[x]\x7ba\x7d").toList] [("a").toList] (by decide)

end Taipo
